import Mathlib

/-!
Verification of the Alpinescraper core against its specification.

This file shallowly embeds the relevant parts of the repository:
  * `src/Alpinescraper/common/pipeline.py` — the field serializers
    (`serialize_int`, `serialize_float`, `serialize_bool`, `serialize_string`),
    `apply_serializer`, `clean_raw_data`, and the MongoDB bounded writer
    (`write_mongodb`, `clean_mongodb`, `size_mongodb`,
    `calculate_documents_size`).
  * `src/Alpinescraper/common/scraper.py` — `ScrapingOrchestrator.create_army`
    (the `np.array_split` partition), `deploy_army`, and the paginated
    `fetch_urls` loops of `AcmImmobilierOrchestrator` and
    `AscensionImmoOrchestrator`.
  * `src/Alpinescraper/common/spiders.py` — `Spider.deploy` and
    `AcmImmobilierSpider.parse`.
  * `src/Alpinescraper/common/items.py` — the `Item` dataclass schema.

Modelling conventions:
  * Python strings are Lean `String`s; the regex and `str` methods used by the
    source (`re.findall`, `re.sub(r"\s+", " ", _)`, `.strip()`, `.lower()`)
    are embedded as executable functions over `List Char` (ASCII whitespace
    and digits, which is what every claim exercises).
  * Python `float` sizes in the Mongo writer are modelled as exact byte
    counts (`Nat`).  The source compares `size_mongodb + calculate_documents_size
    >= 512` in MB; since dividing a byte count by `2^20` and adding two such
    quotients is exact in IEEE double precision for realistic sizes, the byte
    level comparison `storeBytes + batchBytes >= 512 * 2^20` is faithful.
  * Fallible Python code (uncaught exceptions) is embedded with `Except PyExc`;
    caught-and-logged warnings are returned as an explicit `Bool` flag.
-/

namespace Alpinescraper

/-- Python exceptions that can escape the embedded code paths. -/
inductive PyExc
  | attributeError
  | typeError
  | valueError
  | unboundLocalError
  | indexError
  | keyError
  | workerError
deriving DecidableEq, Repr

instance {ε α : Type} [DecidableEq ε] [DecidableEq α] : DecidableEq (Except ε α) :=
  fun x y =>
    match x, y with
    | .ok a, .ok b =>
      if h : a = b then isTrue (by rw [h]) else isFalse (fun hc => h (by injection hc))
    | .error a, .error b =>
      if h : a = b then isTrue (by rw [h]) else isFalse (fun hc => h (by injection hc))
    | .ok _, .error _ => isFalse (fun hc => Except.noConfusion hc)
    | .error _, .ok _ => isFalse (fun hc => Except.noConfusion hc)

/-! ## Character-level embeddings of the Python string primitives -/

/-- ASCII whitespace, the characters matched by Python `\s` / `str.strip()`. -/
def pyIsWs (c : Char) : Bool :=
  c = ' ' || c = '\t' || c = '\n' || c = '\r' || c = '\x0b' || c = '\x0c'

/-- `str.strip()` from the left: drop leading whitespace. -/
def trimL (l : List Char) : List Char := l.dropWhile pyIsWs

/-- `str.strip()` from the right: drop trailing whitespace (structural form). -/
def trimR : List Char → List Char
  | [] => []
  | c :: cs =>
    match trimR cs with
    | [] => if pyIsWs c then [] else [c]
    | r => c :: r

/-- `str.strip()`: drop whitespace at both ends. -/
def pyStripChars (l : List Char) : List Char := trimR (trimL l)

/-- `str.strip()` on a `String`. -/
def pyStrip (s : String) : String := ⟨pyStripChars s.data⟩

/-- `str.lower()` restricted to ASCII case mapping. -/
def asciiLowerChar (c : Char) : Char :=
  if 'A' ≤ c ∧ c ≤ 'Z' then Char.ofNat (c.toNat + 32) else c

/-- `str.lower()` on a `String` (ASCII). -/
def pyLower (s : String) : String := ⟨s.data.map asciiLowerChar⟩

/-- `re.sub(r"\s+", " ", _)`: replace each maximal whitespace run by one
space.  A whitespace character followed by another whitespace character is
dropped; the last character of a run becomes `' '`. -/
def collapseWs : List Char → List Char
  | [] => []
  | c :: cs =>
    if pyIsWs c then
      if (match cs with | d :: _ => pyIsWs d | [] => false) then collapseWs cs
      else ' ' :: collapseWs cs
    else c :: collapseWs cs

/-- Value of a nonempty all-digit character list, `None` otherwise. -/
def digitsVal (l : List Char) : Option Nat :=
  if l ≠ [] ∧ l.all Char.isDigit then
    some (l.foldl (fun a c => a * 10 + (c.toNat - 48)) 0)
  else none

/-- Python `int(s)` on the strings producible by the int serializer:
an optional single sign followed by a nonempty digit run. -/
def pyIntOfChars (l : List Char) : Option Int :=
  match l with
  | '-' :: rest => (digitsVal rest).map (fun n => -(n : Int))
  | '+' :: rest => (digitsVal rest).map (fun n => (n : Int))
  | _ => (digitsVal l).map (fun n => (n : Int))

/-- Python `float(s)` on strings over digits, one optional sign and at most
one dot: `sign? digits* ('.' digits*)?` with at least one digit. -/
def pyFloatOfChars (l : List Char) : Option Rat :=
  let core : List Char → Option Rat := fun body =>
    let intPart := body.takeWhile Char.isDigit
    let rest := body.dropWhile Char.isDigit
    match rest with
    | [] => (digitsVal intPart).map (fun n => (n : Rat))
    | '.' :: frac =>
      if frac.all Char.isDigit ∧ (intPart ≠ [] ∨ frac ≠ []) then
        let a : Nat := (digitsVal intPart).getD 0
        let b : Nat := (digitsVal frac).getD 0
        some ((a : Rat) + (b : Rat) / ((10 : Rat) ^ frac.length))
      else none
    | _ => none
  match l with
  | '-' :: body => (core body).map (fun q => -q)
  | '+' :: body => core body
  | _ => core l

/-- Fuel-bounded scanner for `re.findall(r"[-+]?\d+", s)` (the fuel
`l.length + 1` always suffices since every step consumes a character). -/
def findIntRunsAux : Nat → List Char → List (List Char)
  | 0, _ => []
  | _ + 1, [] => []
  | fuel + 1, c :: cs =>
    if c.isDigit then
      (c :: cs.takeWhile Char.isDigit) :: findIntRunsAux fuel (cs.dropWhile Char.isDigit)
    else if (c = '-' || c = '+') && (match cs with | d :: _ => d.isDigit | [] => false) then
      (c :: cs.takeWhile Char.isDigit) :: findIntRunsAux fuel (cs.dropWhile Char.isDigit)
    else findIntRunsAux fuel cs

/-- `re.findall(r"[-+]?\d+", s)`: the successive non-overlapping maximal
optionally-signed digit runs of `s`. -/
def findIntRuns (l : List Char) : List (List Char) :=
  findIntRunsAux (l.length + 1) l

/-- One attempted match of the body `\d*\.*\d+` (with regex backtracking) at
the head of `l`: returns the matched characters and the remaining input. -/
def floatBodyAt (l : List Char) : Option (List Char × List Char) :=
  let a := l.takeWhile Char.isDigit
  let r1 := l.dropWhile Char.isDigit
  let b := r1.takeWhile (fun c => c = '.')
  let r2 := r1.dropWhile (fun c => c = '.')
  let c := r2.takeWhile Char.isDigit
  let r3 := r2.dropWhile Char.isDigit
  if c ≠ [] then some (a ++ b ++ c, r3)
  else if a ≠ [] then some (a, r1)
  else none

/-- `re.findall(r"[-+]?(?:\d*\.*\d+)", s)`, fuel-bounded scanner (the fuel
`l.length + 1` always suffices since every match consumes a character). -/
def findFloatRunsAux : Nat → List Char → List (List Char)
  | 0, _ => []
  | _ + 1, [] => []
  | fuel + 1, ch :: cs =>
    if ch = '-' || ch = '+' then
      match floatBodyAt cs with
      | some (m, rest) => (ch :: m) :: findFloatRunsAux fuel rest
      | none => findFloatRunsAux fuel cs
    else
      match floatBodyAt (ch :: cs) with
      | some (m, rest) => m :: findFloatRunsAux fuel rest
      | none => findFloatRunsAux fuel cs

/-- `re.findall(r"[-+]?(?:\d*\.*\d+)", s)`. -/
def findFloatRuns (l : List Char) : List (List Char) :=
  findFloatRunsAux (l.length + 1) l

/-! ## The four serializers of `ItemPipeline` (string level)

Each returns the produced optional value together with a `Bool` recording
whether `LOGGER.warning` was called. -/

/-- `ItemPipeline.serialize_int` on the raw string
(concatenate `re.findall(r"[-+]?\d+", string.strip())` then `int`). -/
def serialize_int_str (s : String) : Option Int × Bool :=
  let tmp := (findIntRuns (pyStripChars s.data)).flatten
  if tmp = [] then (none, false)
  else
    match pyIntOfChars tmp with
    | some n => (some n, false)
    | none => (none, true)

/-- `ItemPipeline.serialize_float` on the raw string. -/
def serialize_float_str (s : String) : Option Rat × Bool :=
  let tmp := (findFloatRuns (pyStripChars s.data)).flatten
  if tmp = [] then (none, false)
  else
    match pyFloatOfChars tmp with
    | some q => (some q, false)
    | none => (none, true)

/-- The fixed truthy vocabulary of `ItemPipeline.serialize_bool`. -/
def true_values : List String := ["yes", "true", "1", "oui"]

/-- The fixed falsy vocabulary of `ItemPipeline.serialize_bool`. -/
def false_values : List String := ["no", "false", "0", "non"]

/-- `ItemPipeline.serialize_bool` on the raw string
(`value = string.strip().lower()`, fixed vocabulary, warn otherwise). -/
def serialize_bool_str (s : String) : Option Bool × Bool :=
  let value := pyLower (pyStrip s)
  if ¬ (value ∈ true_values ∨ value ∈ false_values) then (none, true)
  else (some (decide (value ∈ true_values)), false)

/-- `ItemPipeline.serialize_string` on the raw string
(`re.sub(r"\s+", " ", string).strip()`, warn and `None` when empty). -/
def serialize_string_str (s : String) : Option String × Bool :=
  let cleaned := pyStripChars (collapseWs s.data)
  if cleaned = [] then (none, true)
  else (some ⟨cleaned⟩, false)

/-! ## Idempotence of the string cleaning `re.sub(r"\s+", " ", _).strip()` -/

/-- Local condition on the head of a character list relative to its
continuation: a whitespace head must be a plain space and must not be
followed by another whitespace character (except as the final character). -/
def headOk (c : Char) : List Char → Bool
  | [] => !pyIsWs c || c = ' '
  | d :: _ => !pyIsWs c || (c = ' ' && !pyIsWs d)

/-- Lists in which every whitespace character is a plain space and no two
whitespace characters are adjacent. -/
def okRun : List Char → Bool
  | [] => true
  | c :: cs => headOk c cs && okRun cs

theorem headOk_weaken {c d : Char} {t : List Char} (h : headOk c (d :: t) = true) :
    headOk c [] = true := by
  simp only [headOk, Bool.or_eq_true, Bool.and_eq_true] at h ⊢
  rcases h with h | ⟨h, _⟩
  · exact Or.inl h
  · exact Or.inr h

theorem collapseWs_cons_ws_nil {c : Char} (hc : pyIsWs c = true) :
    collapseWs [c] = [' '] := by
  simp [collapseWs, hc]

theorem collapseWs_cons_ws_ws {c d : Char} (rest : List Char)
    (hc : pyIsWs c = true) (hd : pyIsWs d = true) :
    collapseWs (c :: d :: rest) = collapseWs (d :: rest) := by
  simp [collapseWs, hc, hd]

theorem collapseWs_cons_ws_nws {c d : Char} (rest : List Char)
    (hc : pyIsWs c = true) (hd : pyIsWs d = false) :
    collapseWs (c :: d :: rest) = ' ' :: d :: collapseWs rest := by
  simp [collapseWs, hc, hd]

theorem collapseWs_cons_nws {c : Char} (cs : List Char) (hc : pyIsWs c = false) :
    collapseWs (c :: cs) = c :: collapseWs cs := by
  simp [collapseWs, hc]

theorem headOk_of_not_ws {c : Char} (t : List Char) (hc : pyIsWs c = false) :
    headOk c t = true := by
  cases t <;> simp [headOk, hc]

theorem pyIsWs_space : pyIsWs ' ' = true := by decide

theorem okRun_cons_intro {c : Char} {t : List Char}
    (h1 : headOk c t = true) (h2 : okRun t = true) : okRun (c :: t) = true := by
  simp [okRun, h1, h2]

theorem okRun_collapseWs (l : List Char) : okRun (collapseWs l) = true := by
  induction l with
  | nil => simp [collapseWs, okRun]
  | cons c cs ih =>
    by_cases hc : pyIsWs c = true
    · cases cs with
      | nil => rw [collapseWs_cons_ws_nil hc]; decide
      | cons d rest =>
        by_cases hd : pyIsWs d = true
        · rw [collapseWs_cons_ws_ws rest hc hd]; exact ih
        · have hd' : pyIsWs d = false := by simpa using hd
          rw [collapseWs_cons_ws_nws rest hc hd']
          have hcs : collapseWs (d :: rest) = d :: collapseWs rest :=
            collapseWs_cons_nws rest hd'
          rw [hcs] at ih
          refine okRun_cons_intro ?_ ih
          simp [headOk, pyIsWs_space, hd']
    · have hc' : pyIsWs c = false := by simpa using hc
      rw [collapseWs_cons_nws cs hc']
      exact okRun_cons_intro (headOk_of_not_ws _ hc') ih

theorem collapseWs_of_okRun (l : List Char) (h : okRun l = true) :
    collapseWs l = l := by
  induction l with
  | nil => rfl
  | cons c cs ih =>
    simp only [okRun, Bool.and_eq_true] at h
    obtain ⟨hhead, htail⟩ := h
    by_cases hc : pyIsWs c = true
    · cases cs with
      | nil =>
        simp only [headOk, hc, Bool.not_true, Bool.false_or, decide_eq_true_eq] at hhead
        rw [collapseWs_cons_ws_nil hc, hhead]
      | cons d rest =>
        simp only [headOk, hc, Bool.not_true, Bool.false_or, Bool.and_eq_true,
          decide_eq_true_eq, Bool.not_eq_true'] at hhead
        obtain ⟨hsp, hd⟩ := hhead
        rw [collapseWs_cons_ws_nws rest hc hd, hsp]
        have := ih htail
        rw [collapseWs_cons_nws rest hd] at this
        have hrest : collapseWs rest = rest := by
          exact (List.cons.injEq _ _ _ _ ▸ this).2
        rw [hrest]
    · have hc' : pyIsWs c = false := by simpa using hc
      rw [collapseWs_cons_nws cs hc', ih htail]

theorem okRun_tail {c : Char} {cs : List Char} (h : okRun (c :: cs) = true) :
    okRun cs = true := by
  simp only [okRun, Bool.and_eq_true] at h
  exact h.2

theorem okRun_dropWhile (p : Char → Bool) (l : List Char) (h : okRun l = true) :
    okRun (l.dropWhile p) = true := by
  induction l with
  | nil => simpa using h
  | cons c cs ih =>
    by_cases hc : p c = true
    · simpa [List.dropWhile, hc] using ih (okRun_tail h)
    · simpa [List.dropWhile, hc] using h

theorem okRun_trimL (l : List Char) (h : okRun l = true) : okRun (trimL l) = true :=
  okRun_dropWhile pyIsWs l h

/-- `trimR` either empties a cons cell or keeps its head. -/
theorem trimR_cons_shape (c : Char) (cs : List Char) :
    trimR (c :: cs) = [] ∨ ∃ r, trimR (c :: cs) = c :: r := by
  cases h : trimR cs with
  | nil =>
    by_cases hc : pyIsWs c = true
    · left; simp [trimR, h, hc]
    · right; exact ⟨[], by simp [trimR, h, hc]⟩
  | cons x xs => right; exact ⟨x :: xs, by simp [trimR, h]⟩

theorem okRun_single_of_headOk {c : Char} {cs : List Char}
    (h : headOk c cs = true) : okRun [c] = true := by
  cases cs with
  | nil => simp [okRun, h]
  | cons d t => simp [okRun, headOk_weaken h]

theorem okRun_trimR (l : List Char) (h : okRun l = true) : okRun (trimR l) = true := by
  induction l with
  | nil => simpa using h
  | cons c cs ih =>
    simp only [okRun, Bool.and_eq_true] at h
    obtain ⟨hhead, htail⟩ := h
    cases hr : trimR cs with
    | nil =>
      by_cases hc : pyIsWs c = true
      · simp [trimR, hr, hc, okRun]
      · simpa [trimR, hr, hc] using okRun_single_of_headOk hhead
    | cons x xs =>
      have hshape : trimR (c :: cs) = c :: x :: xs := by simp [trimR, hr]
      rw [hshape]
      have hok : okRun (x :: xs) = true := hr ▸ ih htail
      cases cs with
      | nil => simp [trimR] at hr
      | cons d rest =>
        rcases trimR_cons_shape d rest with h0 | ⟨r, hdr⟩
        · rw [h0] at hr; exact absurd hr (by simp)
        · rw [hdr] at hr
          have hx : d = x := (List.cons.injEq _ _ _ _ ▸ hr).1
          subst hx
          refine okRun_cons_intro ?_ hok
          simpa [headOk] using hhead

theorem dropWhile_idem (p : Char → Bool) (l : List Char) :
    (l.dropWhile p).dropWhile p = l.dropWhile p := by
  induction l with
  | nil => rfl
  | cons c cs ih =>
    by_cases hc : p c = true
    · simpa [List.dropWhile, hc] using ih
    · simp [List.dropWhile, hc]

theorem trimR_idem (l : List Char) : trimR (trimR l) = trimR l := by
  induction l with
  | nil => rfl
  | cons c cs ih =>
    cases hr : trimR cs with
    | nil =>
      by_cases hc : pyIsWs c = true
      · simp [trimR, hr, hc]
      · simp [trimR, hr, hc]
    | cons x xs =>
      have hshape : trimR (c :: cs) = c :: x :: xs := by simp [trimR, hr]
      rw [hshape]
      have hxx : trimR (x :: xs) = x :: xs := by rw [← hr, ih, hr]
      show (match trimR (x :: xs) with
        | [] => if pyIsWs c = true then [] else [c]
        | r => c :: r) = c :: x :: xs
      rw [hxx]

theorem trimL_trimR_of_fixed (x : List Char) (h : trimL x = x) :
    trimL (trimR x) = trimR x := by
  cases x with
  | nil => rfl
  | cons c cs =>
    have hc : pyIsWs c = false := by
      by_contra hcc
      have hcc' : pyIsWs c = true := by
        cases hv : pyIsWs c
        · exact absurd hv hcc
        · rfl
      have : trimL (c :: cs) = trimL cs := by simp [trimL, List.dropWhile, hcc']
      rw [h] at this
      have hlen : (c :: cs).length ≤ cs.length := by
        rw [this]
        exact List.Sublist.length_le (List.dropWhile_sublist _)
      simp at hlen
    rcases trimR_cons_shape c cs with h0 | ⟨r, hr⟩
    · simp [h0, trimL]
    · rw [hr]
      simp [trimL, List.dropWhile, hc]

theorem pyStripChars_idem (l : List Char) :
    pyStripChars (pyStripChars l) = pyStripChars l := by
  unfold pyStripChars
  have h1 : trimL (trimL l) = trimL l := dropWhile_idem pyIsWs l
  have h2 : trimL (trimR (trimL l)) = trimR (trimL l) :=
    trimL_trimR_of_fixed (trimL l) h1
  rw [h2, trimR_idem]

theorem okRun_pyStripChars (l : List Char) (h : okRun l = true) :
    okRun (pyStripChars l) = true :=
  okRun_trimR _ (okRun_trimL _ h)

/-- The combined cleaning of `serialize_string`. -/
def cleanStrChars (l : List Char) : List Char := pyStripChars (collapseWs l)

theorem cleanStrChars_idem (l : List Char) :
    cleanStrChars (cleanStrChars l) = cleanStrChars l := by
  unfold cleanStrChars
  have hk : okRun (collapseWs l) = true := okRun_collapseWs l
  have hm : okRun (pyStripChars (collapseWs l)) = true := okRun_pyStripChars _ hk
  rw [collapseWs_of_okRun _ hm, pyStripChars_idem]

/-- `serialize_string` is a no-op on its own successful output. -/
theorem serialize_string_idem (s t : String)
    (h : (serialize_string_str s).1 = some t) :
    serialize_string_str t = (some t, false) := by
  unfold serialize_string_str at h ⊢
  by_cases he : pyStripChars (collapseWs s.data) = []
  · simp [he] at h
  · simp only [he, if_false] at h
    have ht : t = ⟨pyStripChars (collapseWs s.data)⟩ := by
      simpa using h.symm
    subst ht
    have : pyStripChars (collapseWs (String.mk (pyStripChars (collapseWs s.data))).data)
        = pyStripChars (collapseWs s.data) := cleanStrChars_idem s.data
    simp [this, he]

/-! ## The `Item` data model (`items.py`) and `clean_raw_data` -/

/-- The declared field types occurring in the `Item` dataclass
(`Optional[str]`, `Optional[int]`, `Optional[float]`, `Optional[bool]` and
their non-optional forms). -/
inductive FType
  | tStr
  | tInt
  | tFloat
  | tBool
deriving DecidableEq, Repr

/-- A runtime Python value held in an `Item` attribute. -/
inductive Value
  | vNone
  | vStr (s : String)
  | vInt (n : Int)
  | vFloat (q : Rat)
  | vBool (b : Bool)
deriving DecidableEq, Repr

/-- One dataclass field: its name, its declared type (from the fixed schema
table consulted by `clean_raw_data`) and its current value. -/
structure FieldV where
  name : String
  ftype : FType
  val : Value
deriving DecidableEq, Repr

/-- An `Item` is its ordered list of dataclass fields, as enumerated by
`dataclasses.fields(item)`. -/
abbrev Item := List FieldV

/-- The `Item` dataclass schema of `items.py`, in declaration order. -/
def alpineSchema : List (String × FType) :=
  [("DATE", .tStr), ("PRICE", .tFloat), ("REFERENCE", .tStr), ("SPIDER", .tStr),
   ("TITLE", .tStr), ("URL", .tStr), ("AGENCY", .tStr), ("COOWNERSHIP", .tStr),
   ("BALCONY_COUNT", .tInt), ("BATHROOMS", .tFloat), ("BEDROOMS", .tFloat),
   ("CURRENCY", .tStr), ("DESCRIPTION", .tStr), ("ELEVATOR", .tBool),
   ("ENERGY_PERFORMANCE", .tStr), ("EXTERNAL_SIZE", .tFloat),
   ("EXTERIOR_AMENITIES", .tStr), ("FLOOR", .tInt), ("GARAGE", .tInt),
   ("GARDEN", .tStr), ("GREENHOUSE_EMISSION", .tStr), ("HEATING", .tStr),
   ("INTERIOR_AMENITIES", .tStr), ("LOCATION", .tStr), ("NB_FLOOR", .tInt),
   ("PARKING", .tInt), ("ROOMS", .tFloat), ("SIZE", .tFloat), ("STATUS", .tStr),
   ("TERRACE", .tBool), ("TYPE", .tStr), ("VIEW", .tStr),
   ("YEAR_OF_CONSTRUCTION", .tInt)]

/-- Build a full-schema `Item` from an association list of set values;
unmentioned fields get the dataclass default `None`. -/
def mkItem (vals : List (String × Value)) : Item :=
  alpineSchema.map (fun p => ⟨p.1, p.2, (vals.lookup p.1).getD Value.vNone⟩)

/-- Wrap a serializer result back into an attribute value. -/
def asValue {α : Type} (mk : α → Value) : Option α → Value
  | some a => mk a
  | none => .vNone

/-- `ItemPipeline.serialize_int` at the attribute level: `getattr` yields the
stored value and `.strip()` is called on it, so any non-string value (an
already-typed `int`, `float` or `bool`, or `None`) raises `AttributeError`. -/
def serialize_int_v : Value → Except PyExc Value
  | .vStr s => .ok (asValue Value.vInt (serialize_int_str s).1)
  | _ => .error .attributeError

/-- `ItemPipeline.serialize_float` at the attribute level. -/
def serialize_float_v : Value → Except PyExc Value
  | .vStr s => .ok (asValue Value.vFloat (serialize_float_str s).1)
  | _ => .error .attributeError

/-- `ItemPipeline.serialize_bool` at the attribute level. -/
def serialize_bool_v : Value → Except PyExc Value
  | .vStr s => .ok (asValue Value.vBool (serialize_bool_str s).1)
  | _ => .error .attributeError

/-- `ItemPipeline.serialize_string` at the attribute level (`re.sub` raises
`TypeError` on a non-string argument). -/
def serialize_string_v : Value → Except PyExc Value
  | .vStr s => .ok (asValue Value.vStr (serialize_string_str s).1)
  | _ => .error .typeError

/-- `ItemPipeline.apply_serializer`: `None` short-circuits, otherwise the
serializer runs on the stored value. -/
def apply_serializer (ser : Value → Except PyExc Value) (v : Value) :
    Except PyExc Value :=
  if v = .vNone then .ok .vNone else ser v

/-- The type dispatch of `clean_raw_data` (float, then str, then int, then
bool; every schema type matches one of the four branches). -/
def dispatch : FType → Value → Except PyExc Value
  | .tFloat => serialize_float_v
  | .tStr => serialize_string_v
  | .tInt => serialize_int_v
  | .tBool => serialize_bool_v

/-- Processing of a single field inside the `clean_raw_data` loop. -/
def clean_field (f : FieldV) : Except PyExc FieldV :=
  match apply_serializer (dispatch f.ftype) f.val with
  | .error e => .error e
  | .ok v => .ok ⟨f.name, f.ftype, v⟩

/-- The inner per-field loop of `clean_raw_data` over one item; an uncaught
exception in any field aborts the whole method. -/
def clean_item : Item → Except PyExc Item
  | [] => .ok []
  | f :: fs =>
    match clean_field f with
    | .error e => .error e
    | .ok f' =>
      match clean_item fs with
      | .error e => .error e
      | .ok fs' => .ok (f' :: fs')

/-- `ItemPipeline.clean_raw_data`: clean every raw item in order. -/
def clean_raw_data : List Item → Except PyExc (List Item)
  | [] => .ok []
  | it :: its =>
    match clean_item it with
    | .error e => .error e
    | .ok it' =>
      match clean_raw_data its with
      | .error e => .error e
      | .ok its' => .ok (it' :: its')

/-- A value as produced by a spider: a scraped string or `None`. -/
def isStrOrNone : Value → Bool
  | .vNone => true
  | .vStr _ => true
  | _ => false

/-- A raw record: every attribute is a scraped string or `None`. -/
def isRawItem (it : Item) : Bool := it.all (fun f => isStrOrNone f.val)

/-- The value `clean_raw_data` stores for a raw (string-or-`None`) field. -/
def cleanValueRaw (t : FType) : Value → Value
  | .vStr s =>
    match t with
    | .tFloat => asValue Value.vFloat (serialize_float_str s).1
    | .tStr => asValue Value.vStr (serialize_string_str s).1
    | .tInt => asValue Value.vInt (serialize_int_str s).1
    | .tBool => asValue Value.vBool (serialize_bool_str s).1
  | v => v

/-- The cleaned form of a raw field. -/
def cleanFieldRaw (f : FieldV) : FieldV := ⟨f.name, f.ftype, cleanValueRaw f.ftype f.val⟩

theorem clean_field_raw (f : FieldV) (h : isStrOrNone f.val = true) :
    clean_field f = .ok (cleanFieldRaw f) := by
  obtain ⟨n, t, v⟩ := f
  cases v with
  | vNone => cases t <;> rfl
  | vStr s =>
    cases t <;>
      simp [clean_field, apply_serializer, dispatch, serialize_int_v,
        serialize_float_v, serialize_bool_v, serialize_string_v,
        cleanFieldRaw, cleanValueRaw]
  | vInt n' => simp [isStrOrNone] at h
  | vFloat q => simp [isStrOrNone] at h
  | vBool b => simp [isStrOrNone] at h

theorem clean_item_raw (it : Item) (h : isRawItem it = true) :
    clean_item it = .ok (it.map cleanFieldRaw) := by
  induction it with
  | nil => rfl
  | cons f fs ih =>
    simp only [isRawItem, List.all_cons, Bool.and_eq_true] at h
    have hf := clean_field_raw f h.1
    have hfs := ih h.2
    simp [clean_item, hf, hfs]

theorem clean_raw_data_raw (items : List Item)
    (h : ∀ it ∈ items, isRawItem it = true) :
    clean_raw_data items = .ok (items.map (fun it => it.map cleanFieldRaw)) := by
  induction items with
  | nil => rfl
  | cons it its ih =>
    have hit := clean_item_raw it (h it (by simp))
    have hits := ih (fun x hx => h x (by simp [hx]))
    simp [clean_raw_data, hit, hits]

/-! ## Idempotence of normalization (second pass over already-typed values) -/

/-- A field on which a second normalization pass cannot raise: its value is
`None`, or it is a string-typed field holding a string. -/
def fieldIdemReady (f : FieldV) : Bool :=
  match f.ftype, f.val with
  | _, .vNone => true
  | .tStr, .vStr _ => true
  | _, _ => false

/-- An item on which a second normalization pass cannot raise. -/
def itemIdemReady (it : Item) : Bool := it.all fieldIdemReady

theorem clean_field_idem (f : FieldV) (h : fieldIdemReady f = true) :
    ∃ f', clean_field f = .ok f' ∧ clean_field f' = .ok f' := by
  obtain ⟨n, t, v⟩ := f
  cases v with
  | vNone =>
    refine ⟨⟨n, t, .vNone⟩, ?_, ?_⟩ <;> rfl
  | vStr s =>
    have ht : t = FType.tStr := by
      cases t <;> simp_all [fieldIdemReady]
    subst ht
    cases hs : (serialize_string_str s).1 with
    | none =>
      refine ⟨⟨n, .tStr, .vNone⟩, ?_, rfl⟩
      simp [clean_field, apply_serializer, dispatch, serialize_string_v, asValue, hs]
    | some t' =>
      refine ⟨⟨n, .tStr, .vStr t'⟩, ?_, ?_⟩
      · simp [clean_field, apply_serializer, dispatch, serialize_string_v, asValue, hs]
      · have hidem := serialize_string_idem s t' hs
        simp [clean_field, apply_serializer, dispatch, serialize_string_v, asValue, hidem]
  | vInt n' => simp [fieldIdemReady] at h
  | vFloat q => simp [fieldIdemReady] at h
  | vBool b => simp [fieldIdemReady] at h

theorem clean_item_idem (it : Item) (h : itemIdemReady it = true) :
    ∃ out, clean_item it = .ok out ∧ clean_item out = .ok out := by
  induction it with
  | nil => exact ⟨[], rfl, rfl⟩
  | cons f fs ih =>
    simp only [itemIdemReady, List.all_cons, Bool.and_eq_true] at h
    obtain ⟨f', hf1, hf2⟩ := clean_field_idem f h.1
    obtain ⟨out, ho1, ho2⟩ := ih h.2
    refine ⟨f' :: out, ?_, ?_⟩
    · simp [clean_item, hf1, ho1]
    · simp [clean_item, hf2, ho2]

/-! ## Pointwise shape of `clean_raw_data` on raw input -/

/-- Postcondition of `clean_raw_data` on raw input: same number of records in
the same order, the i-th cleaned from the i-th raw record, with field names,
declared types and field count preserved and `None` fields left `None`. -/
def CleanPointwise (items out : List Item) : Prop :=
  out.length = items.length ∧
  ∀ (i : Nat) (rawIt cleanIt : Item), items[i]? = some rawIt → out[i]? = some cleanIt →
    clean_item rawIt = .ok cleanIt ∧
    cleanIt.length = rawIt.length ∧
    ∀ (j : Nat) (rf cf : FieldV), rawIt[j]? = some rf → cleanIt[j]? = some cf →
      cf.name = rf.name ∧ cf.ftype = rf.ftype ∧
      (rf.val = Value.vNone → cf.val = Value.vNone)

theorem cleanValueRaw_none (t : FType) : cleanValueRaw t Value.vNone = Value.vNone := by
  cases t <;> rfl

theorem clean_raw_data_pointwise_aux (items : List Item)
    (h : ∀ it ∈ items, isRawItem it = true) :
    CleanPointwise items (items.map (fun it => it.map cleanFieldRaw)) := by
  constructor
  · simp
  · intro i rawIt cleanIt hraw hclean
    have hmem : rawIt ∈ items := List.getElem?_mem hraw
    rw [List.getElem?_map, hraw] at hclean
    have hcl : cleanIt = rawIt.map cleanFieldRaw := by
      simpa using hclean.symm
    subst hcl
    refine ⟨clean_item_raw _ (h _ hmem), by simp, ?_⟩
    intro j rf cf hrf hcf
    rw [List.getElem?_map, hrf] at hcf
    have hcf' : cf = cleanFieldRaw rf := by simpa using hcf.symm
    subst hcf'
    refine ⟨rfl, rfl, ?_⟩
    intro hnone
    simp [cleanFieldRaw, hnone, cleanValueRaw_none]

/-! ## Claim C8: the integer serializer -/

/-- C8 counterexample: on `"abc"` (no digits in the raw string) the integer
serializer returns Absent but does **not** log a warning — the guard
`int(tmp) if tmp or len(tmp) != 0 else None` yields `None` silently and the
`except ValueError` logging branch is never reached, while the claim asserts a
warning is logged whenever no digits are found. -/
theorem serialize_int_abc_silent :
    (serialize_int_str "abc").1 = none ∧ ¬ (serialize_int_str "abc").2 = true := by
  constructor <;> decide

/-- C8 (amended): the integer serializer extracts all contiguous optionally
signed digit runs of the stripped raw string, concatenates them and parses the
result with `int`; it returns Absent when no digits are found (silently) or
when the parse fails (with a warning); `"3 chambres"` yields `3`, `"abc"`
yields Absent, `"-2 étages"` yields `-2` (and `"3 -4"`, whose concatenation
`"3-4"` does not parse, yields Absent with a warning). -/
theorem serialize_int_characterization (s : String) :
    (serialize_int_str s).1 =
      pyIntOfChars ((findIntRuns (pyStripChars s.data)).flatten) ∧
    (serialize_int_str s).2 =
      (!((findIntRuns (pyStripChars s.data)).flatten.isEmpty) &&
        (pyIntOfChars ((findIntRuns (pyStripChars s.data)).flatten)).isNone) ∧
    serialize_int_str "3 chambres" = (some 3, false) ∧
    serialize_int_str "abc" = (none, false) ∧
    serialize_int_str "-2 étages" = (some (-2), false) ∧
    serialize_int_str "3 -4" = (none, true) := by
  refine ⟨?_, ?_, by decide, by decide, by decide, by decide⟩ <;>
  · unfold serialize_int_str
    cases h : (findIntRuns (pyStripChars s.data)).flatten with
    | nil => simp [pyIntOfChars, digitsVal]
    | cons c rest =>
      simp only [List.isEmpty_cons, Bool.not_false, Bool.true_and]
      cases hp : pyIntOfChars (c :: rest) <;> simp [hp]

/-! ## Claim C9: the boolean serializer -/

/-- The branch structure of `serialize_bool` on the lowered, stripped value. -/
def boolCore (v : String) : Option Bool × Bool :=
  if ¬ (v ∈ true_values ∨ v ∈ false_values) then (none, true)
  else (some (decide (v ∈ true_values)), false)

theorem serialize_bool_str_eq (s : String) :
    serialize_bool_str s = boolCore (pyLower (pyStrip s)) := rfl

theorem boolCore_of_true {v : String} (h : v ∈ true_values) :
    boolCore v = (some true, false) := by
  unfold boolCore
  rw [if_neg (by simp [h])]
  simp [h]

theorem boolCore_of_false {v : String} (h : v ∈ false_values) :
    boolCore v = (some false, false) := by
  unfold boolCore
  rw [if_neg (by simp [h])]
  have hd : decide (v ∈ true_values) = false := by
    fin_cases h <;> decide
  rw [hd]

theorem boolCore_of_other {v : String} (h1 : v ∉ true_values)
    (h2 : v ∉ false_values) : boolCore v = (none, true) := by
  unfold boolCore
  rw [if_pos (by simp [h1, h2])]

/-- C9: the boolean serializer lower-cases and trims the raw string, maps
exactly the vocabulary `{yes, true, 1, oui}` to `true` and `{no, false, 0,
non}` to `false`, and returns Absent with a warning for any other value;
`"Oui"` yields `true`, `"Non"` yields `false`, `"maybe"` yields Absent. -/
theorem serialize_bool_vocabulary (s : String) :
    (pyLower (pyStrip s) ∈ true_values →
      serialize_bool_str s = (some true, false)) ∧
    (pyLower (pyStrip s) ∈ false_values →
      serialize_bool_str s = (some false, false)) ∧
    (pyLower (pyStrip s) ∉ true_values ∧ pyLower (pyStrip s) ∉ false_values →
      serialize_bool_str s = (none, true)) ∧
    serialize_bool_str "Oui" = (some true, false) ∧
    serialize_bool_str "Non" = (some false, false) ∧
    serialize_bool_str "maybe" = (none, true) := by
  refine ⟨?_, ?_, ?_, by decide, by decide, by decide⟩
  · intro h; rw [serialize_bool_str_eq]; exact boolCore_of_true h
  · intro h; rw [serialize_bool_str_eq]; exact boolCore_of_false h
  · intro h; rw [serialize_bool_str_eq]; exact boolCore_of_other h.1 h.2

/-- Witness for C9 at the three concrete inputs of the claim. -/
theorem serialize_bool_vocabulary_witness :
    pyLower (pyStrip "Oui") ∈ true_values ∧
    serialize_bool_str "Oui" = (some true, false) ∧
    pyLower (pyStrip "Non") ∈ false_values ∧
    serialize_bool_str "Non" = (some false, false) ∧
    serialize_bool_str "maybe" = (none, true) :=
  ⟨by decide, (serialize_bool_vocabulary "Oui").1 (by decide), by decide,
    (serialize_bool_vocabulary "Non").2.1 (by decide),
    (serialize_bool_vocabulary "maybe").2.2.1 ⟨by decide, by decide⟩⟩

/-! ## Claim C4: idempotence of normalization -/

/-- A realistic raw record, as produced by a spider: every attribute is a
scraped string (or the dataclass default `None`). -/
def rawItemC4 : Item :=
  mkItem [("DATE", .vStr "2024-01-15"), ("PRICE", .vStr "250000"),
          ("REFERENCE", .vStr "REF-1"), ("SPIDER", .vStr "acm_1"),
          ("TITLE", .vStr "Chalet"), ("URL", .vStr "http://a/1"),
          ("BALCONY_COUNT", .vStr "2")]

/-- C4 counterexample: normalization is **not** idempotent.  Cleaning
`rawItemC4` stores the typed value `250000.0` in `PRICE` (and `2` in
`BALCONY_COUNT`); running `clean_raw_data` again calls `.strip()` on that
float, which raises `AttributeError` instead of leaving the value unchanged,
so `normalize (normalize x)` is an uncaught exception, not `normalize x`. -/
theorem clean_not_idempotent :
    (clean_item rawItemC4).bind clean_item = .error PyExc.attributeError ∧
    (clean_item rawItemC4).bind clean_item ≠ clean_item rawItemC4 := by
  constructor <;> decide

/-- C4 (amended): a second normalization pass is the identity only on records
whose non-string-typed fields are all Absent; on such records (string fields
holding strings or `None`, every int/float/bool field `None`)
`normalize (normalize x) = normalize x`, the string serializer being a no-op
on its own output.  Re-serializing an already-typed int/float/bool value
raises `AttributeError` instead of being a no-op. -/
theorem clean_item_idempotent_on_safe (it : Item) (h : itemIdemReady it = true) :
    (clean_item it).bind clean_item = clean_item it := by
  obtain ⟨out, h1, h2⟩ := clean_item_idem it h
  rw [h1]
  show clean_item out = .ok out
  exact h2

/-- A record with only string-typed content, on which normalization is
idempotent. -/
def itemC4w : Item := mkItem [("TITLE", .vStr "  Chalet  vue  "), ("URL", .vStr "http://x")]

/-- Witness for the amended C4 at a concrete record. -/
theorem clean_item_idempotent_on_safe_witness :
    itemIdemReady itemC4w = true ∧
    (clean_item itemC4w).bind clean_item = clean_item itemC4w :=
  ⟨by decide, clean_item_idempotent_on_safe itemC4w (by decide)⟩

/-! ## Claim C10: shape preservation of `clean_raw_data` -/

/-- C10: on raw input (spider output: strings or `None`), `clean_raw_data`
returns a list of exactly the same length and order, the i-th output cleaned
from the i-th input, preserving each record's field names, declared types and
field count, and leaving `None` fields `None` (the serializer is short-circuited
by `apply_serializer` on absent values). -/
theorem clean_raw_data_pointwise (items : List Item)
    (h : ∀ it ∈ items, isRawItem it = true) :
    ∃ out, clean_raw_data items = .ok out ∧ CleanPointwise items out :=
  ⟨_, clean_raw_data_raw items h, clean_raw_data_pointwise_aux items h⟩

/-- Concrete raw input for the C10 witness. -/
def itemsC10w : List Item :=
  [mkItem [("TITLE", .vStr "A"), ("PRICE", .vStr "100")],
   mkItem [("DATE", .vStr "2024-01-01")]]

/-- Witness for C10 at a concrete two-record batch. -/
theorem clean_raw_data_pointwise_witness :
    (∀ it ∈ itemsC10w, isRawItem it = true) ∧
    ∃ out, clean_raw_data itemsC10w = .ok out ∧ CleanPointwise itemsC10w out :=
  ⟨by decide, clean_raw_data_pointwise itemsC10w (by decide)⟩

/-! ## Claim C3: the `np.array_split` partition of `create_army` -/

/-- The section sizes produced by `np.array_split` on a length-`L` sequence
split into `n` sections: `L % n` sections of size `L / n + 1` followed by
sections of size `L / n`. -/
def chunkSizes (L n : Nat) : List Nat :=
  (List.range n).map (fun i => if i < L % n then L / n + 1 else L / n)

/-- Cut a list into consecutive chunks of the given sizes. -/
def splitBySizes {α : Type} : List Nat → List α → List (List α)
  | [], _ => []
  | s :: ss, xs => xs.take s :: splitBySizes ss (xs.drop s)

/-- `np.array_split(xs, n)` as called in `create_army` (scraper.py line 61). -/
def np_array_split {α : Type} (xs : List α) (n : Nat) : List (List α) :=
  splitBySizes (chunkSizes xs.length n) xs

/-- The URL subsets assigned by `ScrapingOrchestrator.create_army`: spider `i`
receives `list(np.array_split(self._urls, self.nb_spider)[i])`. -/
def create_army_urls (urls : List String) (n : Nat) : List (List String) :=
  (List.range n).map (fun i => (np_array_split urls n).getD i [])

theorem sum_map_range_const_succ (q r n : Nat) (h : n ≤ r) :
    ((List.range n).map (fun i => if i < r then q + 1 else q)).sum = n * (q + 1) := by
  induction n with
  | zero => simp
  | succ m ih =>
    rw [List.range_succ, List.map_append, List.sum_append,
      ih (Nat.le_of_succ_le h)]
    have hm : m < r := h
    simp [hm, Nat.succ_mul]

theorem sum_map_range_split (q r n : Nat) (h : r ≤ n) :
    ((List.range n).map (fun i => if i < r then q + 1 else q)).sum = n * q + r := by
  induction n with
  | zero => simp; omega
  | succ m ih =>
    rw [List.range_succ, List.map_append, List.sum_append]
    by_cases hr : r ≤ m
    · rw [ih hr]
      have hm : ¬ m < r := by omega
      simp [hm, Nat.succ_mul]
      omega
    · have hrm : r = m + 1 := by omega
      subst hrm
      rw [sum_map_range_const_succ q (m + 1) m (Nat.le_succ m)]
      have hm : m < m + 1 := Nat.lt_succ_self m
      simp [hm, Nat.succ_mul, Nat.mul_succ]
      omega

theorem chunkSizes_sum (L n : Nat) (h : 0 < n) : (chunkSizes L n).sum = L := by
  unfold chunkSizes
  rw [sum_map_range_split _ _ _ (Nat.le_of_lt (Nat.mod_lt _ h))]
  exact Nat.div_add_mod L n

theorem chunkSizes_length (L n : Nat) : (chunkSizes L n).length = n := by
  simp [chunkSizes]

theorem chunkSizes_mem (L n x : Nat) (h : x ∈ chunkSizes L n) :
    x = L / n ∨ x = L / n + 1 := by
  unfold chunkSizes at h
  obtain ⟨i, _, hix⟩ := List.mem_map.mp h
  by_cases hi : i < L % n
  · right; rw [← hix]; simp [hi]
  · left; rw [← hix]; simp [hi]

theorem splitBySizes_length {α : Type} (ss : List Nat) (xs : List α) :
    (splitBySizes ss xs).length = ss.length := by
  induction ss generalizing xs with
  | nil => rfl
  | cons s ss ih => simp [splitBySizes, ih]

theorem splitBySizes_flatten {α : Type} (ss : List Nat) (xs : List α)
    (h : ss.sum = xs.length) : (splitBySizes ss xs).flatten = xs := by
  induction ss generalizing xs with
  | nil =>
    simp only [List.sum_nil] at h
    simp [splitBySizes, (List.length_eq_zero.mp h.symm)]
  | cons s ss ih =>
    simp only [List.sum_cons] at h
    have hs : s ≤ xs.length := by omega
    have hrec : ss.sum = (xs.drop s).length := by
      rw [List.length_drop]; omega
    simp [splitBySizes, ih _ hrec]

theorem splitBySizes_map_length {α : Type} (ss : List Nat) (xs : List α)
    (h : ss.sum ≤ xs.length) : (splitBySizes ss xs).map List.length = ss := by
  induction ss generalizing xs with
  | nil => rfl
  | cons s ss ih =>
    simp only [List.sum_cons] at h
    have hs : s ≤ xs.length := by omega
    have hrec : ss.sum ≤ (xs.drop s).length := by
      rw [List.length_drop]; omega
    simp [splitBySizes, ih _ hrec, List.length_take, Nat.min_eq_left hs]

theorem splitBySizes_sublist {α : Type} (ss : List Nat) (xs : List α) :
    ∀ p ∈ splitBySizes ss xs, p.Sublist xs := by
  induction ss generalizing xs with
  | nil => intro p hp; simp [splitBySizes] at hp
  | cons s ss ih =>
    intro p hp
    simp only [splitBySizes, List.mem_cons] at hp
    rcases hp with rfl | hp
    · exact List.take_sublist s xs
    · exact (ih (xs.drop s) p hp).trans (List.drop_sublist s xs)

theorem map_range_getD {α : Type} (l : List α) (d : α) :
    (List.range l.length).map (fun i => l.getD i d) = l := by
  induction l with
  | nil => rfl
  | cons a t ih =>
    rw [List.length_cons, List.range_succ_eq_map, List.map_cons, List.map_map]
    have hcomp : ((fun i => (a :: t).getD i d) ∘ Nat.succ) = (fun i => t.getD i d) := by
      funext i; rfl
    rw [hcomp, ih]
    rfl

theorem np_array_split_length {α : Type} (xs : List α) (n : Nat) :
    (np_array_split xs n).length = n := by
  rw [np_array_split, splitBySizes_length, chunkSizes_length]

theorem map_range_getD_of_length {α : Type} (l : List α) (n : Nat)
    (h : l.length = n) (d : α) :
    (List.range n).map (fun i => l.getD i d) = l := by
  subst h; exact map_range_getD l d

theorem create_army_urls_eq (urls : List String) (n : Nat) :
    create_army_urls urls n = np_array_split urls n :=
  map_range_getD_of_length _ _ (np_array_split_length urls n) []

/-- Postcondition of the `create_army` partition: `n` subsets, pairwise
disjoint, jointly covering the URL set, with sizes differing by at most one,
each preserving the original order, and computed by the deterministic pure
function `np_array_split` of the input alone. -/
def ArmyPartitionOk (urls : List String) (n : Nat) : Prop :=
  (create_army_urls urls n).length = n ∧
  List.Pairwise List.Disjoint (create_army_urls urls n) ∧
  (∀ u, u ∈ urls ↔ ∃ p ∈ create_army_urls urls n, u ∈ p) ∧
  (∀ p ∈ create_army_urls urls n, ∀ q ∈ create_army_urls urls n,
    p.length ≤ q.length + 1) ∧
  (∀ p ∈ create_army_urls urls n, p.Sublist urls) ∧
  create_army_urls urls n = np_array_split urls n

/-- C3: for every deduplicated URL sequence of length `L` and worker count
`n` with `0 < n ≤ L`, the `create_army` partition yields `n` pairwise
disjoint subsets whose union is the input URL set, whose sizes differ by at
most one, which preserve the input order, and which are a deterministic pure
function of the input. -/
theorem create_army_partition (urls : List String) (n : Nat)
    (hn : 0 < n) (_hL : n ≤ urls.length) (hd : urls.Nodup) :
    ArmyPartitionOk urls n := by
  have heq := create_army_urls_eq urls n
  have hsum : (chunkSizes urls.length n).sum = urls.length := chunkSizes_sum _ _ hn
  have hflat : (np_array_split urls n).flatten = urls :=
    splitBySizes_flatten _ _ hsum
  have hnodup : (np_array_split urls n).flatten.Nodup := by rw [hflat]; exact hd
  have hlen : (np_array_split urls n).map List.length = chunkSizes urls.length n :=
    splitBySizes_map_length _ _ (le_of_eq hsum)
  refine ⟨?_, ?_, ?_, ?_, ?_, heq⟩
  · rw [heq]; exact np_array_split_length urls n
  · rw [heq]
    exact (List.nodup_flatten.mp hnodup).2
  · intro u
    rw [heq]
    constructor
    · intro hu
      have hm : u ∈ (np_array_split urls n).flatten := by rw [hflat]; exact hu
      exact List.mem_flatten.mp hm
    · intro ⟨p, hp, hup⟩
      have hm : u ∈ (np_array_split urls n).flatten := List.mem_flatten.mpr ⟨p, hp, hup⟩
      rwa [hflat] at hm
  · intro p hp q hq
    rw [heq] at hp hq
    have hpm : p.length ∈ chunkSizes urls.length n := by
      rw [← hlen]; exact List.mem_map_of_mem List.length hp
    have hqm : q.length ∈ chunkSizes urls.length n := by
      rw [← hlen]; exact List.mem_map_of_mem List.length hq
    rcases chunkSizes_mem _ _ _ hpm with h1 | h1 <;>
      rcases chunkSizes_mem _ _ _ hqm with h2 | h2 <;> omega
  · intro p hp
    rw [heq] at hp
    exact splitBySizes_sublist _ _ p hp

/-- Witness for C3 at the concrete input `["a", "b", "c"]` with two workers. -/
theorem create_army_partition_witness :
    0 < 2 ∧ 2 ≤ (["a", "b", "c"] : List String).length ∧
    (["a", "b", "c"] : List String).Nodup ∧ ArmyPartitionOk ["a", "b", "c"] 2 :=
  ⟨by decide, by decide, by decide,
    create_army_partition ["a", "b", "c"] 2 (by decide) (by decide) (by decide)⟩

/-! ## Claim C1: `deploy_army` and total worker failure -/

/-- `ScrapingOrchestrator.deploy_army`: iterate over the completed futures in
completion order (modelled by the list order); `future.result()` re-raises a
worker's uncaught exception, otherwise the worker's items are appended to the
merged result. -/
def deploy_army : List (Except PyExc (List Item)) → Except PyExc (List Item)
  | [] => .ok []
  | r :: rs =>
    match r with
    | .error e => .error e
    | .ok items =>
      match deploy_army rs with
      | .error e => .error e
      | .ok rest => .ok (items ++ rest)

/-- The per-worker item lists of the workers that succeeded. -/
def okResults : List (Except PyExc (List Item)) → List (List Item)
  | [] => []
  | .ok items :: rs => items :: okResults rs
  | .error _ :: rs => okResults rs

/-- Concrete item produced by worker 1. -/
def itemW1 : Item := mkItem [("TITLE", .vStr "A"), ("URL", .vStr "http://1")]

/-- Concrete item produced by worker 3. -/
def itemW3 : Item := mkItem [("TITLE", .vStr "B"), ("URL", .vStr "http://3")]

/-- C1 counterexample: with three workers whose deploy outcomes are success
`[itemW1]`, an uncaught exception, and success `[itemW3]`, `deploy_army`
re-raises the exception through `future.result()` (there is no try/except
around it), so the run returns no merged results at all instead of the
records of workers 1 and 3. -/
theorem deploy_army_aborts_on_worker_failure :
    deploy_army [.ok [itemW1], .error .workerError, .ok [itemW3]] =
      .error PyExc.workerError ∧
    deploy_army [.ok [itemW1], .error .workerError, .ok [itemW3]] ≠
      .ok [itemW1, itemW3] := by
  constructor <;> decide

/-- C1 (amended): `deploy_army` returns the merged worker results — with
count equal to the sum of the per-worker success counts — only when **every**
worker succeeds; if any worker's deploy raises an unexpected exception, that
exception propagates out of `deploy_army` and aborts the whole run, so a
single worker's total failure does abort the other workers' results. -/
theorem deploy_army_merge (outs : List (Except PyExc (List Item))) :
    ((∀ r ∈ outs, ∃ items, r = Except.ok items) →
      deploy_army outs = .ok ((okResults outs).flatten) ∧
      ((okResults outs).flatten).length = ((okResults outs).map List.length).sum) ∧
    ((∃ e, Except.error e ∈ outs) → ∃ e', deploy_army outs = .error e') := by
  constructor
  · intro hall
    constructor
    · induction outs with
      | nil => rfl
      | cons r rs ih =>
        obtain ⟨items, rfl⟩ := hall r (by simp)
        have hrec := ih (fun x hx => hall x (by simp [hx]))
        simp [deploy_army, okResults, hrec]
    · simp [List.length_flatten]
  · intro ⟨e, he⟩
    induction outs with
    | nil => simp at he
    | cons r rs ih =>
      cases r with
      | error e0 => exact ⟨e0, rfl⟩
      | ok items =>
        have hin : Except.error e ∈ rs := by
          rcases List.mem_cons.mp he with h | h
          · exact absurd h (by simp)
          · exact h
        obtain ⟨e', he'⟩ := ih hin
        exact ⟨e', by simp [deploy_army, he']⟩

/-- Witness for the amended C1: an all-success run merges with the summed
count, and a run containing a failed worker propagates an exception. -/
theorem deploy_army_merge_witness :
    (∀ r ∈ ([.ok [itemW1], .ok [itemW3]] : List (Except PyExc (List Item))),
      ∃ items, r = Except.ok items) ∧
    (deploy_army [.ok [itemW1], .ok [itemW3]] =
        .ok ((okResults [.ok [itemW1], .ok [itemW3]]).flatten) ∧
      ((okResults [.ok [itemW1], .ok [itemW3]]).flatten).length =
        ((okResults [.ok [itemW1], .ok [itemW3]]).map List.length).sum) ∧
    (∃ e, Except.error e ∈
      ([.ok [itemW1], .error .workerError] : List (Except PyExc (List Item)))) ∧
    (∃ e', deploy_army [.ok [itemW1], .error .workerError] = .error e') :=
  ⟨fun r hr => by fin_cases hr <;> exact ⟨_, rfl⟩,
    (deploy_army_merge [.ok [itemW1], .ok [itemW3]]).1
      (fun r hr => by fin_cases hr <;> exact ⟨_, rfl⟩),
    ⟨.workerError, by simp⟩,
    (deploy_army_merge [.ok [itemW1], .error .workerError]).2
      ⟨.workerError, by simp⟩⟩

/-! ## Claim C5: failure containment in the worker's per-URL loop -/

/-- The parts of an ACM listing page that `AcmImmobilierSpider.parse` reads:
each soup lookup may find its node or not, and the critere wrapper holds a
list of feature divs, each with the texts of its `<b>` children. -/
structure AcmPage where
  title : Option String
  description : Option String
  prix : Option String
  reference : Option String
  critere : Option (List (List String))
deriving DecidableEq, Repr

/-- The `conversion_args` table of `AcmImmobilierSpider`. -/
def acmConversionArgs : List (String × String) :=
  [("Surface habitable", "SIZE"), ("Surface terrain", "EXTERNAL_SIZE"),
   ("Nbre de pièces", "ROOMS"), ("Chambre", "BEDROOMS"),
   ("Nbre d'étages", "NB_FLOOR"), ("Exposition", "VIEW"),
   ("Année de construction", "YEAR_OF_CONSTRUCTION"), ("Parking", "PARKING"),
   ("Cave", "INTERIOR_AMENITIES"), ("Nbre de balcon", "BALCONY_COUNT"),
   ("Terrasse", "EXTERIOR_AMENITIES"), ("Nature chauffage", "HEATING"),
   ("Étage", "FLOOR"), ("Ascenseur", "ELEVATOR"),
   ("Type cuisine", "KITCHEN_TYPE"), ("Piscine", "POOL")]

/-- Python dict assignment on an insertion-ordered association list. -/
def setArg : List (String × Value) → String → Value → List (String × Value)
  | [], k, v => [(k, v)]
  | (k0, v0) :: rest, k, v =>
    if k0 = k then (k, v) :: rest else (k0, v0) :: setArg rest k v

/-- Python `int(s)` on an arbitrary string: strip, optional sign, digits. -/
def pyIntStrict (s : String) : Option Int := pyIntOfChars (pyStripChars s.data)

/-- The feature loop of `AcmImmobilierSpider.parse`: each feature div's `<b>`
texts are examined; an empty list is skipped with a warning, a known feature
name reads `tup[1]` (raising `IndexError` when there is no second `<b>`), the
bathroom names accumulate `int(tup[1].get_text(strip=True))` (which can raise
`ValueError`), and unknown names are skipped with a warning. -/
def acmFeatureLoop : List (String × Value) → Int → List (List String) →
    Except PyExc (List (String × Value) × Int)
  | args, bath, [] => .ok (args, bath)
  | args, bath, bs :: rest =>
    match bs with
    | [] => acmFeatureLoop args bath rest
    | b0 :: btail =>
      match acmConversionArgs.lookup b0 with
      | some target =>
        match btail with
        | [] => .error .indexError
        | b1 :: _ => acmFeatureLoop (setArg args target (.vStr b1)) bath rest
      | none =>
        if b0 = "Salle d'eau" ∨ b0 = "Salle de bains" then
          match btail with
          | [] => .error .indexError
          | b1 :: _ =>
            match pyIntStrict b1 with
            | some k => acmFeatureLoop args (bath + k) rest
            | none => .error .valueError
        else acmFeatureLoop args bath rest

/-- `AcmImmobilierSpider.parse`.  On a fetch failure the `except` branch only
logs and falls through, so `response` is referenced while unbound and
`UnboundLocalError` is raised; missing expected elements raise
`AttributeError` from `.get_text()` on `None`. -/
def acm_parse (fetch : String → Except Unit AcmPage) (today : String)
    (url : String) : Except PyExc (Option Item) :=
  match fetch url with
  | .error _ => .error .unboundLocalError
  | .ok page =>
    match page.title with
    | none => .error .attributeError
    | some titleText =>
      match page.description with
      | none => .error .attributeError
      | some descText =>
        match page.prix with
        | none => .error .attributeError
        | some prixText =>
          match page.reference with
          | none => .error .attributeError
          | some refText =>
            match page.critere with
            | none => .error .attributeError
            | some featureList =>
              let args0 : List (String × Value) :=
                [("TITLE", .vStr titleText), ("DESCRIPTION", .vStr descText),
                 ("PRICE", .vStr prixText), ("REFERENCE", .vStr refText)]
              match acmFeatureLoop args0 0 featureList with
              | .error e => .error e
              | .ok (args, bathrooms) =>
                let args2 := if featureList.isEmpty then args
                  else setArg args "BATHROOMS" (.vStr (toString bathrooms))
                .ok (some (mkItem (args2 ++
                  [("SPIDER", .vStr "acm_immobilier"),
                   ("AGENCY", .vStr "ACM Immobilier"),
                   ("DATE", .vStr today), ("URL", .vStr url)])))

/-- `Spider.deploy`: the per-URL loop; `parse` is called with **no**
surrounding try/except, so any exception it raises propagates out of the
loop and crashes the worker. -/
def spider_deploy (parse : String → Except PyExc (Option Item)) :
    List String → Except PyExc (List Item)
  | [] => .ok []
  | u :: us =>
    match parse u with
    | .error e => .error e
    | .ok oi =>
      match spider_deploy parse us with
      | .error e => .error e
      | .ok rest => .ok (match oi with | some it => it :: rest | none => rest)

/-- C5: the failure-containment contract is violated by the code.  When the
fetch of a URL fails, `AcmImmobilierSpider.parse`'s `except` branch logs but
does not return (unlike the sibling spiders), then dereferences the unbound
`response`, raising `UnboundLocalError`; `Spider.deploy` has no try/except in
its per-URL loop, so the exception propagates and the worker crashes instead
of logging and skipping that URL. -/
theorem acm_fetch_failure_crashes_worker :
    spider_deploy (acm_parse (fun _ => .error ()) "2024-01-15")
      ["https://www.acm-immobilier.fr/fr/annonce/1"] =
      .error PyExc.unboundLocalError := by
  decide

/-! ## Claims C2 and C6: the bounded MongoDB writer

The store is one database holding named collections of documents.  The model
is parametric in the document type `δ` with two observation functions:
`dateOf` (the document's `DATE` value, mapped order-isomorphically to `Nat`)
and `sizeOf` (its BSON-encoded size in bytes, which is external to the
embedded code).  Sizes are exact byte counts: the source compares MB floats
obtained by dividing byte counts by `2^20`, which is exact in double
precision, so `bytes >= 512 * 2^20` is the faithful comparison. -/

/-- The database: a list of (collection name, documents). -/
abbrev MStore (δ : Type) := List (String × List δ)

/-- All documents across all collections. -/
def storeDocs {δ : Type} (s : MStore δ) : List δ := (s.map Prod.snd).flatten

/-- `ItemPipeline.size_mongodb` (data+index size of the whole database). -/
def size_mongodb {δ : Type} (sizeOf : δ → Nat) (s : MStore δ) : Nat :=
  ((storeDocs s).map sizeOf).sum

/-- `ItemPipeline.calculate_documents_size` (BSON size of the batch). -/
def calculate_documents_size {δ : Type} (sizeOf : δ → Nat) (batch : List δ) : Nat :=
  (batch.map sizeOf).sum

/-- The 512 MB quota, in bytes. -/
def QUOTA : Nat := 512 * 1024 * 1024

/-- One MB in bytes. -/
def MB : Nat := 1024 * 1024

/-- Minimum of a list of naturals (`df["DATE"].min()`). -/
def natMin? : List Nat → Option Nat
  | [] => none
  | d :: ds => some (match natMin? ds with | none => d | some m => min d m)

/-- The minimum `DATE` across every collection of the database
(`load_data` then `df["DATE"].min()`). -/
def min_date {δ : Type} (dateOf : δ → Nat) (s : MStore δ) : Option Nat :=
  natMin? ((storeDocs s).map dateOf)

/-- `ItemPipeline.clean_mongodb`: delete from every collection all documents
whose `DATE` equals the minimum date of the store.  On an empty store the
loaded DataFrame has no `DATE` column and `df["DATE"]` raises `KeyError`. -/
def clean_mongodb {δ : Type} (dateOf : δ → Nat) (s : MStore δ) :
    Except PyExc (MStore δ) :=
  match min_date dateOf s with
  | none => .error .keyError
  | some m => .ok (s.map (fun c => (c.1, c.2.filter (fun d => dateOf d != m))))

/-- The `while size_mongodb(...) + calculate_documents_size() >= 512` eviction
loop of `write_mongodb`, fuel-bounded (`none` = fuel exhausted). -/
def evict_loop {δ : Type} (dateOf sizeOf : δ → Nat) (batch : List δ) :
    Nat → MStore δ → Option (Except PyExc (MStore δ))
  | 0, _ => none
  | fuel + 1, s =>
    if size_mongodb sizeOf s + calculate_documents_size sizeOf batch ≥ QUOTA then
      match clean_mongodb dateOf s with
      | .error e => some (.error e)
      | .ok s' => evict_loop dateOf sizeOf batch fuel s'
    else some (.ok s)

/-- `tmp_collection.delete_many({})`: empty the destination collection. -/
def clear_collection {δ : Type} (s : MStore δ) (coll : String) : MStore δ :=
  s.map (fun c => if c.1 = coll then (c.1, ([] : List δ)) else c)

/-- `tmp_collection.insert_many(...)`: append the batch to the destination
collection, creating it if absent. -/
def insert_many {δ : Type} : MStore δ → String → List δ → MStore δ
  | [], coll, batch => [(coll, batch)]
  | c :: cs, coll, batch =>
    if c.1 = coll then (c.1, c.2 ++ batch) :: cs
    else c :: insert_many cs coll batch

/-- `ItemPipeline.write_mongodb`: evict while the stored size plus the batch
size is at least the quota, then clear the destination collection unless
appending, then insert the batch.  The fuel `|storeDocs| + 1` always covers
the eviction loop since each eviction deletes at least one document. -/
def write_mongodb {δ : Type} (dateOf sizeOf : δ → Nat) (s : MStore δ)
    (coll : String) (batch : List δ) (append : Bool) :
    Option (Except PyExc (MStore δ)) :=
  match evict_loop dateOf sizeOf batch ((storeDocs s).length + 1) s with
  | none => none
  | some (.error e) => some (.error e)
  | some (.ok s1) =>
    let s2 := if append then s1 else clear_collection s1 coll
    some (.ok (insert_many s2 coll batch))

/-- Modelled from the claim's wording for comparison: the eviction loop
triggered only when the sum would strictly exceed the 512 MB quota. -/
def evict_loop_spec {δ : Type} (dateOf sizeOf : δ → Nat) (batch : List δ) :
    Nat → MStore δ → Option (Except PyExc (MStore δ))
  | 0, _ => none
  | fuel + 1, s =>
    if size_mongodb sizeOf s + calculate_documents_size sizeOf batch > QUOTA then
      match clean_mongodb dateOf s with
      | .error e => some (.error e)
      | .ok s' => evict_loop_spec dateOf sizeOf batch fuel s'
    else some (.ok s)

/-- Modelled from the claim's wording: `write_mongodb` with the
strictly-exceeds trigger. -/
def write_mongodb_spec {δ : Type} (dateOf sizeOf : δ → Nat) (s : MStore δ)
    (coll : String) (batch : List δ) (append : Bool) :
    Option (Except PyExc (MStore δ)) :=
  match evict_loop_spec dateOf sizeOf batch ((storeDocs s).length + 1) s with
  | none => none
  | some (.error e) => some (.error e)
  | some (.ok s1) =>
    let s2 := if append then s1 else clear_collection s1 coll
    some (.ok (insert_many s2 coll batch))

theorem storeDocs_cons {δ : Type} (c : String × List δ) (cs : MStore δ) :
    storeDocs (c :: cs) = c.2 ++ storeDocs cs := by
  simp [storeDocs]

theorem size_mongodb_cons {δ : Type} (sizeOf : δ → Nat) (c : String × List δ)
    (cs : MStore δ) :
    size_mongodb sizeOf (c :: cs) = (c.2.map sizeOf).sum + size_mongodb sizeOf cs := by
  simp [size_mongodb, storeDocs_cons]

theorem size_insert_many {δ : Type} (sizeOf : δ → Nat) (s : MStore δ)
    (coll : String) (batch : List δ) :
    size_mongodb sizeOf (insert_many s coll batch) =
      size_mongodb sizeOf s + calculate_documents_size sizeOf batch := by
  induction s with
  | nil => simp [insert_many, size_mongodb, storeDocs, calculate_documents_size]
  | cons c cs ih =>
    by_cases hc : c.1 = coll
    · simp [insert_many, hc, size_mongodb_cons, calculate_documents_size]
      omega
    · simp [insert_many, hc, size_mongodb_cons, ih, calculate_documents_size]
      omega

theorem size_clear_le {δ : Type} (sizeOf : δ → Nat) (s : MStore δ) (coll : String) :
    size_mongodb sizeOf (clear_collection s coll) ≤ size_mongodb sizeOf s := by
  induction s with
  | nil => simp [clear_collection, size_mongodb, storeDocs]
  | cons c cs ih =>
    by_cases hc : c.1 = coll
    · simp [clear_collection, hc, size_mongodb_cons] at ih ⊢
      omega
    · simp [clear_collection, hc, size_mongodb_cons] at ih ⊢
      omega

theorem mem_insert_many {δ : Type} (s : MStore δ) (coll : String)
    (batch : List δ) (d : δ) (hd : d ∈ batch) :
    d ∈ storeDocs (insert_many s coll batch) := by
  induction s with
  | nil => simp [insert_many, storeDocs, hd]
  | cons c cs ih =>
    by_cases hc : c.1 = coll
    · simp [insert_many, hc, storeDocs_cons, hd]
    · simp [insert_many, hc, storeDocs_cons]
      right
      simpa [storeDocs] using ih

theorem evict_loop_ok {δ : Type} (dateOf sizeOf : δ → Nat) (batch : List δ) :
    ∀ (fuel : Nat) (s s' : MStore δ),
      evict_loop dateOf sizeOf batch fuel s = some (.ok s') →
      size_mongodb sizeOf s' + calculate_documents_size sizeOf batch < QUOTA := by
  intro fuel
  induction fuel with
  | zero => intro s s' h; simp [evict_loop] at h
  | succ f ih =>
    intro s s' h
    unfold evict_loop at h
    by_cases hc : size_mongodb sizeOf s + calculate_documents_size sizeOf batch ≥ QUOTA
    · rw [if_pos hc] at h
      cases hcl : clean_mongodb dateOf s with
      | error e => rw [hcl] at h; simp at h
      | ok s1 => rw [hcl] at h; exact ih s1 s' h
    · rw [if_neg hc] at h
      have hs : s' = s := by simpa using h.symm
      subst hs
      omega

theorem write_mongodb_post {δ : Type} (dateOf sizeOf : δ → Nat) (s : MStore δ)
    (coll : String) (batch : List δ) (app : Bool) (s' : MStore δ)
    (h : write_mongodb dateOf sizeOf s coll batch app = some (.ok s')) :
    size_mongodb sizeOf s' < QUOTA := by
  unfold write_mongodb at h
  cases hev : evict_loop dateOf sizeOf batch ((storeDocs s).length + 1) s with
  | none => rw [hev] at h; simp at h
  | some r =>
    rw [hev] at h
    cases r with
    | error e => simp at h
    | ok s1 =>
      have hq := evict_loop_ok dateOf sizeOf batch _ s s1 hev
      have hs' : s' = insert_many (if app then s1 else clear_collection s1 coll)
          coll batch := by
        simpa using h.symm
      subst hs'
      rw [size_insert_many]
      cases app with
      | true => simpa using hq
      | false =>
        have := size_clear_le sizeOf s1 coll
        simp only [if_false, Bool.false_eq_true]
        omega

/-- C2 counterexample: at a store of exactly `512 MB − batch` the sum equals
the quota without exceeding it, so the claim's "would exceed" trigger
performs no eviction, but the code's `>= 512` comparison evicts the oldest
date before inserting: the two behaviours produce different stores. -/
theorem write_mongodb_evicts_at_exact_quota :
    write_mongodb Prod.fst Prod.snd [("c", [(1, 462 * MB)])] "c"
        [(2, 50 * MB)] true = some (.ok [("c", [(2, 50 * MB)])]) ∧
    write_mongodb_spec Prod.fst Prod.snd [("c", [(1, 462 * MB)])] "c"
        [(2, 50 * MB)] true =
      some (.ok [("c", [(1, 462 * MB), (2, 50 * MB)])]) ∧
    write_mongodb Prod.fst Prod.snd [("c", [(1, 462 * MB)])] "c"
        [(2, 50 * MB)] true ≠
      write_mongodb_spec Prod.fst Prod.snd [("c", [(1, 462 * MB)])] "c"
        [(2, 50 * MB)] true := by
  refine ⟨?_, ?_, ?_⟩ <;> decide

/-- C2 (amended): before inserting, while the stored size plus the serialized
batch size is **at least** the 512 MB quota (the code's `>=` also fires at
exactly 512 MB), the writer deletes every document bearing the minimum date
across all collections, repeating until strictly under quota, then inserts;
for the store `{D1: 400MB, D2: 150MB}` with a 50 MB batch all D1 documents
are deleted before the insert and the post-insert size is ≤ 512 MB (here
200 MB); eviction repeats across dates when needed; and every successful
write leaves the store strictly under the quota. -/
theorem write_mongodb_eviction :
    (write_mongodb Prod.fst Prod.snd
        [("a", [(1, 400 * MB)]), ("b", [(2, 150 * MB)])] "b" [(3, 50 * MB)] true =
      some (.ok [("a", ([] : List (Nat × Nat))), ("b", [(2, 150 * MB), (3, 50 * MB)])]) ∧
      size_mongodb Prod.snd
        [("a", ([] : List (Nat × Nat))), ("b", [(2, 150 * MB), (3, 50 * MB)])] ≤
        512 * MB) ∧
    (write_mongodb Prod.fst Prod.snd
        [("a", [(1, 300 * MB), (2, 250 * MB), (3, 100 * MB)])] "a"
        [(4, 200 * MB)] true =
      some (.ok [("a", [(3, 100 * MB), (4, 200 * MB)])])) ∧
    (∀ (δ : Type) (dateOf sizeOf : δ → Nat) (s : MStore δ) (coll : String)
        (batch : List δ) (app : Bool) (s' : MStore δ),
      write_mongodb dateOf sizeOf s coll batch app = some (.ok s') →
      size_mongodb sizeOf s' < QUOTA) :=
  ⟨⟨by decide, by decide⟩, by decide,
    fun δ dateOf sizeOf s coll batch app s' h =>
      write_mongodb_post dateOf sizeOf s coll batch app s' h⟩

/-- Witness for the amended C2: a small concrete successful write is strictly
under quota. -/
theorem write_mongodb_eviction_witness :
    write_mongodb Prod.fst Prod.snd [("c", [(1, 10 * MB)])] "c" [(2, 5 * MB)] true =
      some (.ok [("c", [(1, 10 * MB), (2, 5 * MB)])]) ∧
    size_mongodb Prod.snd [("c", [(1, 10 * MB), (2, 5 * MB)])] < QUOTA :=
  ⟨by decide,
    write_mongodb_eviction.2.2 (Nat × Nat) Prod.fst Prod.snd
      [("c", [(1, 10 * MB)])] "c" [(2, 5 * MB)] true
      [("c", [(1, 10 * MB), (2, 5 * MB)])] (by decide)⟩

/-! ## Claim C6: mandatory fields after normalization -/

/-- `getattr(item, name)` on the modelled item. -/
def getField (it : Item) (name : String) : Option Value :=
  (it.find? (fun f => f.name == name)).map FieldV.val

/-- A raw record whose mandatory `PRICE` cannot be parsed. -/
def rawItemC6 : Item :=
  mkItem [("DATE", .vStr "2024-01-15"), ("PRICE", .vStr "abc"),
          ("REFERENCE", .vStr "R1"), ("SPIDER", .vStr "s1"),
          ("TITLE", .vStr "T"), ("URL", .vStr "http://u")]

/-- C6 counterexample: a record whose mandatory `PRICE` fails to parse is
normalized to `PRICE = None`, is **not** discarded (`clean_raw_data` keeps
it), and `write_mongodb` inserts it into the store — no code path discards a
record with an absent mandatory field before persistence.  (Document dates
and BSON sizes are external observations; any instantiation exhibits the
behaviour.) -/
theorem mandatory_absent_record_persisted :
    clean_raw_data [rawItemC6] = .ok [rawItemC6.map cleanFieldRaw] ∧
    getField (rawItemC6.map cleanFieldRaw) "PRICE" = some Value.vNone ∧
    write_mongodb (fun _ => 0) (fun _ => 1) ([] : MStore Item) "acm"
        [rawItemC6.map cleanFieldRaw] false =
      some (.ok [("acm", [rawItemC6.map cleanFieldRaw])]) := by
  refine ⟨?_, ?_, ?_⟩ <;> decide

/-- C6 (amended): a mandatory field that could not be parsed becomes Absent
(`None`) — the pipeline never invents a default — but the record is **not**
discarded: `clean_raw_data` preserves the record count and `write_mongodb`
inserts every cleaned record of the batch into the store. -/
theorem clean_no_discard_insert_all :
    (∀ items : List Item, (∀ it ∈ items, isRawItem it = true) →
      ∃ out, clean_raw_data items = .ok out ∧ out.length = items.length) ∧
    (∀ (δ : Type) (dateOf sizeOf : δ → Nat) (s : MStore δ) (coll : String)
        (batch : List δ) (app : Bool) (s' : MStore δ),
      write_mongodb dateOf sizeOf s coll batch app = some (.ok s') →
      ∀ d ∈ batch, d ∈ storeDocs s') := by
  constructor
  · intro items h
    exact ⟨_, clean_raw_data_raw items h, by simp⟩
  · intro δ dateOf sizeOf s coll batch app s' h d hd
    unfold write_mongodb at h
    cases hev : evict_loop dateOf sizeOf batch ((storeDocs s).length + 1) s with
    | none => rw [hev] at h; simp at h
    | some r =>
      rw [hev] at h
      cases r with
      | error e => simp at h
      | ok s1 =>
        have hs' : s' = insert_many (if app then s1 else clear_collection s1 coll)
            coll batch := by
          simpa using h.symm
        subst hs'
        exact mem_insert_many _ coll batch d hd

/-- Witness for the amended C6 at concrete inputs. -/
theorem clean_no_discard_insert_all_witness :
    (∀ it ∈ [rawItemC6], isRawItem it = true) ∧
    (∃ out, clean_raw_data [rawItemC6] = .ok out ∧ out.length = 1) ∧
    write_mongodb (fun _ : Nat × Nat => 0) Prod.snd ([] : MStore (Nat × Nat)) "c"
      [(7, 3)] true = some (.ok [("c", [(7, 3)])]) ∧
    (7, 3) ∈ storeDocs [("c", [((7 : Nat), (3 : Nat))])] :=
  ⟨by decide, clean_no_discard_insert_all.1 [rawItemC6] (by decide), by decide,
    clean_no_discard_insert_all.2 (Nat × Nat) (fun _ => 0) Prod.snd
      ([] : MStore (Nat × Nat)) "c" [(7, 3)] true [("c", [(7, 3)])]
      (by decide) (7, 3) (by decide)⟩

/-! ## Claim C7: paginated URL discovery -/

/-- An AscensionImmo listing page: the offer hrefs of its
`property-item-content` divs and whether the `next page-numbers` anchor is
present. -/
structure PageA where
  offers : List String
  hasNext : Bool
deriving DecidableEq, Repr

/-- The `while` loop of `AscensionImmoOrchestrator.fetch_urls`.  The state
carries the current `response` and the `soup` checked by the loop condition;
the body re-parses `response` into `soup`, appends its offers, then fetches
the next page — and on a fetch failure the `except` branch only logs, leaving
`response` (and therefore the next iteration's `soup`) unchanged.  `none`
means the loop has not returned within `fuel` iterations. -/
def asc_loop (oracle : Nat → Except Unit PageA) :
    Nat → Nat → List String → PageA → PageA → Option (List String)
  | 0, _, _, _, _ => none
  | fuel + 1, page, urls, resp, soup =>
    if soup.hasNext then
      let soup' := resp
      let urls' := urls ++ soup'.offers
      let page' := page + 1
      let resp' := match oracle page' with
        | .ok r => r
        | .error _ => resp
      asc_loop oracle fuel page' urls' resp' soup'
    else some urls

/-- `AscensionImmoOrchestrator.fetch_urls`: fetch page 1 (an initial fetch
failure leaves `response` unbound and the subsequent
`BeautifulSoup(response.content, ...)` raises), then run the pagination
loop. -/
def asc_fetch_urls (oracle : Nat → Except Unit PageA) (fuel : Nat) :
    Option (Except PyExc (List String)) :=
  match oracle 1 with
  | .error _ => some (.error .unboundLocalError)
  | .ok r =>
    match asc_loop oracle fuel 1 [] r r with
    | none => none
    | some urls => some (.ok urls)

/-- A first page that advertises a next page. -/
def ascBadPage : PageA := ⟨["https://www.ascension-immo.com/p1"], true⟩

/-- A fetch oracle whose page 1 succeeds and every later page fails. -/
def ascBadOracle : Nat → Except Unit PageA :=
  fun n => if n = 1 then .ok ascBadPage else .error ()

theorem asc_loop_stuck :
    ∀ (fuel page : Nat) (urls : List String), 1 ≤ page →
      asc_loop ascBadOracle fuel page urls ascBadPage ascBadPage = none := by
  intro fuel
  induction fuel with
  | zero => intro page urls _; rfl
  | succ f ih =>
    intro page urls hp
    have hnext : (ascBadPage.hasNext : Bool) = true := rfl
    have hfail : ascBadOracle (page + 1) = .error () := by
      simp [ascBadOracle]; omega
    simp only [asc_loop, hnext, if_true, hfail]
    exact ih (page + 1) _ (by omega)

/-- C7 counterexample: paginated discovery does **not** always terminate and
a page fetch failure does **not** stop it.  For AscensionImmo, when page 1
succeeds with a "next" indicator and every later fetch fails, the `except`
branch keeps the previous `response`, the loop re-parses the same page
forever, and `fetch_urls` never returns (for every fuel bound); there is also
no maximum page bound anywhere in the code. -/
theorem asc_fetch_urls_diverges_on_fetch_failure :
    ¬ ∃ (fuel : Nat) (r : Except PyExc (List String)),
      asc_fetch_urls ascBadOracle fuel = some r := by
  rintro ⟨fuel, r, h⟩
  have hs := asc_loop_stuck fuel 1 [] (le_refl 1)
  simp [asc_fetch_urls, ascBadOracle, hs] at h

/-- An ACM listing page: the offer URLs of its `filter-vignette` divs and
whether pagination with a `waves-effect` span is present. -/
structure PageB where
  offers : List String
  hasMore : Bool
deriving DecidableEq, Repr

/-- The `while True` loop of `AcmImmobilierOrchestrator.fetch_urls`: a fetch
failure breaks with the URLs accumulated so far; otherwise the page's offers
are appended and the loop continues exactly when the has-more indicator is
present.  `none` means the loop has not returned within `fuel` iterations. -/
def acm_fetch_loop (oracle : Nat → Except Unit PageB) :
    Nat → Nat → List String → Option (List String)
  | 0, _, _ => none
  | fuel + 1, page, urls =>
    match oracle page with
    | .error _ => some urls
    | .ok p =>
      let urls' := urls ++ p.offers
      if p.hasMore then acm_fetch_loop oracle fuel (page + 1) urls'
      else some urls'

/-- `AcmImmobilierOrchestrator.fetch_urls`, starting from page 1. -/
def acm_fetch_urls (oracle : Nat → Except Unit PageB) (fuel : Nat) :
    Option (List String) :=
  acm_fetch_loop oracle fuel 1 []

/-- A fetch oracle serving the pages of `ps` at pages `1..ps.length` and
failing on every later page. -/
def oracleOfPages (ps : List PageB) : Nat → Except Unit PageB :=
  fun n =>
    match ps[n - 1]? with
    | some p => .ok p
    | none => .error ()

theorem acm_fetch_loop_pages (O : Nat → Except Unit PageB) :
    ∀ (ps : List PageB) (k : Nat) (urls : List String) (extra : Nat),
      (∀ i, O (k + i) = (match ps[i]? with
        | some p => Except.ok p
        | none => Except.error ())) →
      (∀ p ∈ ps, p.hasMore = true) →
      acm_fetch_loop O (ps.length + 1 + extra) k urls =
        some (urls ++ (ps.map PageB.offers).flatten) := by
  intro ps
  induction ps with
  | nil =>
    intro k urls extra hor _
    have h0 : O k = .error () := by simpa using hor 0
    have hfuel : ([] : List PageB).length + 1 + extra = extra + 1 := by
      simp only [List.length_nil]; omega
    rw [hfuel]
    simp [acm_fetch_loop, h0]
  | cons p ps ih =>
    intro k urls extra hor hall
    have h0 : O k = .ok p := by simpa using hor 0
    have hm : p.hasMore = true := hall p (by simp)
    have hlen : (p :: ps).length + 1 + extra = (ps.length + 1 + extra) + 1 := by
      simp only [List.length_cons]; omega
    rw [hlen]
    simp only [acm_fetch_loop, h0, hm, if_true]
    have hor' : ∀ i, O (k + 1 + i) = (match ps[i]? with
        | some q => Except.ok q
        | none => Except.error ()) := by
      intro i
      have := hor (i + 1)
      simpa [Nat.add_assoc, Nat.add_comm 1 i] using this
    rw [ih (k + 1) (urls ++ p.offers) extra hor' (fun q hq => hall q (by simp [hq]))]
    simp

/-- C7 (amended): AcmImmobilier's paginated discovery fetches successive
pages, stopping when the has-more indicator is absent or when a page fetch
fails — in the failure case returning exactly the URLs accumulated from the
pages already parsed.  There is no maximum page bound in the code, so
termination is guaranteed only when a fetch eventually fails or the
indicator eventually disappears; and AscensionImmo's variant does not stop
on a mid-run fetch failure at all (see the counterexample). -/
theorem acm_fetch_urls_accumulates (ps : List PageB)
    (hall : ∀ p ∈ ps, p.hasMore = true) (extra : Nat) :
    (acm_fetch_urls (oracleOfPages ps) (ps.length + 1 + extra) =
      some ((ps.map PageB.offers).flatten)) ∧
    (∀ (p0 : PageB), p0.hasMore = false → ∀ (rest : List PageB) (fuel : Nat),
      acm_fetch_urls (oracleOfPages (p0 :: rest)) (fuel + 1) = some p0.offers) := by
  constructor
  · have hor : ∀ i, oracleOfPages ps (1 + i) = (match ps[i]? with
        | some p => Except.ok p
        | none => Except.error ()) := by
      intro i
      simp [oracleOfPages, Nat.add_comm 1 i]
    simpa using acm_fetch_loop_pages (oracleOfPages ps) ps 1 [] extra hor hall
  · intro p0 h0 rest fuel
    have h1 : oracleOfPages (p0 :: rest) 1 = .ok p0 := by simp [oracleOfPages]
    simp [acm_fetch_urls, acm_fetch_loop, h1, h0]

/-- Witness for the amended C7: one page with the indicator followed by a
failing fetch returns that page's URLs; a first page without the indicator
stops immediately. -/
theorem acm_fetch_urls_accumulates_witness :
    (∀ p ∈ [PageB.mk ["a", "b"] true], p.hasMore = true) ∧
    acm_fetch_urls (oracleOfPages [PageB.mk ["a", "b"] true]) 2 =
      some ["a", "b"] ∧
    acm_fetch_urls (oracleOfPages [PageB.mk ["c"] false, PageB.mk ["d"] true]) 1 =
      some ["c"] :=
  ⟨by decide,
    by
      have h := (acm_fetch_urls_accumulates [PageB.mk ["a", "b"] true]
        (by intro p hp; fin_cases hp; rfl) 0).1
      simpa using h,
    by
      have h := (acm_fetch_urls_accumulates [] (by intro p hp; simp at hp) 0).2
        (PageB.mk ["c"] false) rfl [PageB.mk ["d"] true] 0
      simpa using h⟩

end Alpinescraper
